import Mathlib

/-!
Verification of the netbird control-plane core against its sources.

The definitions below are shallow embeddings of the Go sources:
client/internal/peer/conn.go (peer connection, ICE role election,
direct-vs-proxy policy, signal mailboxes), the management server
(unnamed/part_017: GRPCServer.Sync and GRPCServer.Login,
management/server/peer.go: AccountManager.AddPeer,
unnamed/part_013: FileStore.AddPeer), and the Client Engine's
updateNetworkMap (modelled from the spec, since engine.go is not among
the sources, only engine_test.go is).

Go machine values are mapped as follows: strings stay String (Go
compares strings lexicographically byte-by-byte; the keys here are
ASCII so Lean's character order agrees), Go maps become association
lists updated in place (upsert), an unbuffered or buffered Go channel
becomes an explicit GoChan state record, fallible Go functions return
Except, and wall-clock time is an explicit Nat parameter.
-/

/-- gRPC status codes used by the embedded management server code. -/
inductive ErrCode
  | invalidArgument
  | notFound
  | permissionDenied
  | failedPrecondition
  | internal
deriving DecidableEq, Repr

/-- State of a Go channel as needed for non-blocking send (a select with
a default branch): its buffer capacity, the number of buffered
messages, and the number of goroutines currently blocked receiving.
A non-blocking send succeeds iff a receiver is parked or buffer
space is free; otherwise the default branch is taken. -/
structure GoChan where
  capacity : Nat
  buffered : Nat
  waitingReceivers : Nat
deriving DecidableEq, Repr

/-- A Go channel as produced by make(chan T, c): empty buffer of
capacity c, nobody receiving. make(chan T) is mkChan 0. -/
def mkChan (c : Nat) : GoChan :=
  { capacity := c, buffered := 0, waitingReceivers := 0 }

/-- Non-blocking send on a Go channel (select with a default branch):
hand the message to a parked receiver, else buffer it if the buffer
has room, else fail without blocking. Returns whether the message
was accepted together with the channel state afterwards. -/
def GoChan.trySend (ch : GoChan) : Bool × GoChan :=
  if 0 < ch.waitingReceivers then
    (true, { ch with waitingReceivers := ch.waitingReceivers - 1 })
  else if ch.buffered < ch.capacity then
    (true, { ch with buffered := ch.buffered + 1 })
  else
    (false, ch)

/-- ICE candidate types of the pion agent (conn.go gathers host,
server-reflexive and relay candidates; peer-reflexive can appear in a
selected pair). -/
inductive CandidateType
  | host
  | serverReflexive
  | peerReflexive
  | relay
deriving DecidableEq, Repr

/-- An ICE candidate as consumed by shouldUseProxy: its type and the
IsPublicIP classification of its address (conn.go line 288/289 parses
the candidate address and applies IsPublicIP; the classification is
abstracted to the resulting Bool). -/
structure Candidate where
  typ : CandidateType
  isPublic : Bool
deriving DecidableEq, Repr

/-- The selected ICE candidate pair (pair.Local, pair.Remote). -/
structure CandidatePair where
  Local : Candidate
  Remote : Candidate
deriving DecidableEq, Repr

/-- Embedding of shouldUseProxy (conn.go lines 285-311): true means the
userspace proxy is used, false means a direct connection. -/
def shouldUseProxy (pair : CandidatePair) : Bool :=
  let remoteIsPublic := pair.Remote.isPublic
  let myIsPublic := pair.Local.isPublic
  if pair.Local.typ == CandidateType.relay || pair.Remote.typ == CandidateType.relay then
    true
  else if remoteIsPublic && pair.Remote.typ == CandidateType.host then
    false
  else if myIsPublic && pair.Local.typ == CandidateType.host then
    false
  else if pair.Local.typ == CandidateType.host && pair.Remote.typ == CandidateType.host then
    if !remoteIsPublic && !myIsPublic then false else true
  else
    true

/-- The direct-vs-proxy cascade exactly as the specification words it
(spec section 4.4, "Direct vs proxy policy"), kept separate from the
source embedding shouldUseProxy so the two can be compared. -/
def specProxyDecision (localC remoteC : Candidate) : Bool :=
  if localC.typ == CandidateType.relay || remoteC.typ == CandidateType.relay then
    true
  else if remoteC.typ == CandidateType.host && remoteC.isPublic then
    false
  else if localC.typ == CandidateType.host && localC.isPublic then
    false
  else if localC.typ == CandidateType.host && remoteC.typ == CandidateType.host
      && !localC.isPublic && !remoteC.isPublic then
    false
  else
    true

/-- Connection configuration of a peer Conn (conn.go ConnConfig),
restricted to the fields the verified operations read. -/
structure ConnConfig where
  Key : String
  LocalKey : String
deriving DecidableEq, Repr

/-- ICE credentials (conn.go IceCredentials). -/
structure IceCredentials where
  UFrag : String
  Pwd : String
deriving DecidableEq, Repr

/-- Connection status of a peer Conn (status.go). -/
inductive ConnStatus
  | StatusDisconnected
  | StatusConnecting
  | StatusConnected
deriving DecidableEq, Repr

/-- The peer Conn state (conn.go struct Conn) restricted to the fields
the verified operations touch: configuration, status, and the three
channels closeCh, remoteOffersCh, remoteAnswerCh. -/
structure Conn where
  config : ConnConfig
  status : ConnStatus
  closeCh : GoChan
  remoteOffersCh : GoChan
  remoteAnswerCh : GoChan
deriving DecidableEq, Repr

/-- Embedding of NewConn (conn.go lines 85-95): a fresh Conn is
disconnected and all three channels are created with make(chan T),
hence unbuffered (capacity 0). -/
def NewConn (config : ConnConfig) : Conn :=
  { config := config
    status := ConnStatus.StatusDisconnected
    closeCh := mkChan 0
    remoteOffersCh := mkChan 0
    remoteAnswerCh := mkChan 0 }

/-- Strict order on characters by code value, matching Go byte order on
the ASCII keys involved (UTF-8 byte order and code-point order
agree). -/
def goCharLess (a b : Char) : Bool :=
  decide (a.toNat < b.toNat)

/-- Lexicographic strict order on character lists: the embedding of the
Go string comparison a < b. -/
def goLess : List Char → List Char → Bool
  | [], [] => false
  | [], _ :: _ => true
  | _ :: _, [] => false
  | a :: as, b :: bs =>
    if goCharLess a b then true
    else if goCharLess b a then false
    else goLess as bs

/-- The Go string comparison a > b. -/
def goStringGreater (a b : String) : Bool :=
  goLess b.data a.data

/-- Upper-casing of one character as Go strings.ToUpper performs it on
the ASCII setup-key tokens involved (the unicode tables coincide with
the ASCII rule on them). -/
def goToUpperChar (c : Char) : Char :=
  if 97 ≤ c.toNat ∧ c.toNat ≤ 122 then Char.ofNat (c.toNat - 32) else c

/-- Embedding of strings.ToUpper. -/
def goToUpper (s : String) : String :=
  String.mk (s.data.map goToUpperChar)

/-- Lower-casing of one character, the mirror of goToUpperChar. -/
def goToLowerChar (c : Char) : Char :=
  if 65 ≤ c.toNat ∧ c.toNat ≤ 90 then Char.ofNat (c.toNat + 32) else c

/-- Embedding of strings.ToLower. -/
def goToLower (s : String) : String :=
  String.mk (s.data.map goToLowerChar)

/-- The controlling-side election of Conn.Open (conn.go line 245):
isControlling is LocalKey > Key by Go string comparison. -/
def Conn.isControlling (conn : Conn) : Bool :=
  goStringGreater conn.config.LocalKey conn.config.Key

/-- Which ICE entry point Conn.Open calls (conn.go lines 247-251):
Dial when controlling, Accept otherwise. -/
inductive IceRole
  | dial
  | accept
deriving DecidableEq, Repr

/-- The role taken by Conn.Open after the election (conn.go 245-251). -/
def Conn.openIceRole (conn : Conn) : IceRole :=
  if conn.isControlling then IceRole.dial else IceRole.accept

/-- Result of Conn.Close (conn.go lines 487-510). -/
inductive CloseResult
  | closedOk
  | connectionAlreadyClosedError
deriving DecidableEq, Repr

/-- Embedding of Conn.Close (conn.go lines 487-510): a select that
either delivers on closeCh or takes the default branch and returns
NewConnectionAlreadyClosed without touching any other field. -/
def Conn.Close (conn : Conn) : Conn × CloseResult :=
  match conn.closeCh.trySend with
  | (true, ch) => ({ conn with closeCh := ch }, CloseResult.closedOk)
  | (false, _) => (conn, CloseResult.connectionAlreadyClosedError)

/-- Embedding of Conn.OnRemoteOffer (conn.go lines 521-532): a
non-blocking send on remoteOffersCh; true iff the message was
accepted, the message is discarded otherwise. The credential payload
does not influence the control flow. -/
def Conn.OnRemoteOffer (conn : Conn) (_remoteAuth : IceCredentials) : Conn × Bool :=
  match conn.remoteOffersCh.trySend with
  | (true, ch) => ({ conn with remoteOffersCh := ch }, true)
  | (false, _) => (conn, false)

/-- Embedding of Conn.OnRemoteAnswer (conn.go lines 536-547). -/
def Conn.OnRemoteAnswer (conn : Conn) (_remoteAuth : IceCredentials) : Conn × Bool :=
  match conn.remoteAnswerCh.trySend with
  | (true, ch) => ({ conn with remoteAnswerCh := ch }, true)
  | (false, _) => (conn, false)

/-- Generic association-list lookup used to model reads of a Go map
keyed by strings (first entry with the given key wins; keys are
unique in all states built by the operations below). -/
def lookupA {α : Type} : List (String × α) → String → Option α
  | [], _ => none
  | (k0, v) :: t, k => if k0 = k then some v else lookupA t k

/-- Go map assignment m[k] = v on the association-list model: replace
the entry holding k, or append a new entry when k is absent. -/
def upsert {α : Type} : List (String × α) → String → α → List (String × α)
  | [], k, v => [(k, v)]
  | (k0, v0) :: t, k, v => if k0 = k then (k0, v) :: t else (k0, v0) :: upsert t k v

/-- Setup key types. Modelled from the spec: the SetupKey type of the
management server is not among the sources (only its callers are);
spec section 3 gives type in one-off or reusable. -/
inductive SetupKeyType
  | oneOff
  | reusable
deriving DecidableEq, Repr

/-- A setup key. Modelled from the spec: the SetupKey struct is not
among the sources; spec section 3 gives a UUID-form token, a type,
an optional expiry, a usage count and a revoked flag. -/
structure SetupKey where
  Key : String
  typ : SetupKeyType
  Revoked : Bool
  ExpiresAt : Option Nat
  UsedTimes : Nat
deriving DecidableEq, Repr

/-- Expiry test of a setup key. Modelled from the spec: section 4.2
words expiry rejection as expiry earlier than now; a key without an
expiry never expires. The clock is the explicit now parameter. -/
def SetupKey.notExpired (now : Nat) (sk : SetupKey) : Bool :=
  match sk.ExpiresAt with
  | none => true
  | some t => !(decide (t < now))

/-- Validity of a setup key. Modelled from the spec: SetupKey.IsValid is
not among the sources; spec section 3 states valid iff not revoked
AND not expired AND (type is not one-off OR usage below 1). -/
def SetupKey.IsValid (now : Nat) (sk : SetupKey) : Bool :=
  !sk.Revoked
    && SetupKey.notExpired now sk
    && (!(sk.typ == SetupKeyType.oneOff) || decide (sk.UsedTimes < 1))

/-- Usage bump on acceptance. Modelled from the spec: IncrementUsage is
not among the sources; spec section 4.2 states usage is incremented
on acceptance. -/
def SetupKey.IncrementUsage (sk : SetupKey) : SetupKey :=
  { sk with UsedTimes := sk.UsedTimes + 1 }

/-- A registered peer of the management server
(management/server/peer.go struct Peer). The tunnel IP is the address
number inside the account network, or none for the Go nil net.IP a
peer receives when allocation found no free address. -/
structure Peer where
  Key : String
  SetupKey : String
  IP : Option Nat
deriving DecidableEq, Repr

/-- An account of the management server (management/server/account.go
struct Account). The IPv4 subnet of the account network is carried
as its base address and total address count. -/
structure Account where
  Id : String
  SetupKeys : List (String × SetupKey)
  Peers : List (String × Peer)
  netBase : Nat
  netSize : Nat
deriving DecidableEq, Repr

/-- The host addresses of the account subnet in ascending order,
starting right after the network base address. -/
def hostAddrs (base size : Nat) : List Nat :=
  (List.range (size - 1)).map (fun i => base + 1 + i)

/-- IP allocation. Modelled from the spec: AllocatePeerIP is not among
the sources (management/server/peer.go line 246 calls it); spec
section 4.2 states: enumerate taken IPs, pick the smallest unused
host address in the account subnet. When every host address is taken
the Go function returns a nil IP and an error; the nil result is
none here. -/
def AllocatePeerIP (base size : Nat) (takenIps : List (Option Nat)) : Option Nat :=
  (List.filter (fun ip => decide (some ip ∉ takenIps)) (hostAddrs base size)).head?

/-- Embedding of getAccountSetupKeyByKey (account.go lines 219-226):
scan the account setup keys for one whose Key field equals the
supplied string. -/
def getAccountSetupKeyByKey (acc : Account) (key : String) : Option SetupKey :=
  (acc.SetupKeys.find? (fun e => e.2.Key == key)).map (fun e => e.2)

/-- The peer attributes handed to AddPeer by the caller (key and name;
the remaining meta fields play no role in the verified behaviour). -/
structure PeerInfo where
  Key : String
  Name : String
deriving DecidableEq, Repr

/-- Embedding of AccountManager.AddPeer (management/server/peer.go
lines 211-266) for a supplied non-empty setup key: upper-case the
key, find the account key, reject invalid keys with
FailedPrecondition, allocate the next IP, insert the peer and bump
the key usage. Line 246 reads the allocation result with the error
discarded, so the registration proceeds with whatever IP came back —
the nil IP (none) when the subnet is exhausted. The empty-setup-key
branch of the source (which creates a brand-new account) is outside
the verified claims and maps to the lookup failure below, which is
what the source lookup yields for an empty key as well since stored
keys are non-empty. The store is reduced to the single affected
account: GetAccountBySetupKey plus getAccountSetupKeyByKey amount to
the key search below, and SaveAccount (file I/O, modelled as
succeeding) to returning the updated account. -/
def AccountManager.AddPeer (acc : Account) (now : Nat) (setupKey : String)
    (peer : PeerInfo) : Except ErrCode (Account × Peer) :=
  let upperKey := goToUpper setupKey
  match getAccountSetupKeyByKey acc upperKey with
  | none => Except.error ErrCode.notFound
  | some sk =>
    if !(SetupKey.IsValid now sk) then
      Except.error ErrCode.failedPrecondition
    else
      let takenIps := acc.Peers.map (fun e => e.2.IP)
      let nextIp := AllocatePeerIP acc.netBase acc.netSize takenIps
      let newPeer : Peer := { Key := peer.Key, SetupKey := sk.Key, IP := nextIp }
      Except.ok
        ({ acc with
            Peers := upsert acc.Peers newPeer.Key newPeer
            SetupKeys := upsert acc.SetupKeys sk.Key (SetupKey.IncrementUsage sk) },
          newPeer)

/-- The spec-worded variant of AccountManager.AddPeer for refinement
comparison: identical except that it normalises the supplied key by
lower-casing, as the specification asserts ("setup keys are
lower-cased for lookup", "lower-case lookup"). -/
def specAddPeerLowercase (acc : Account) (now : Nat) (setupKey : String)
    (peer : PeerInfo) : Except ErrCode (Account × Peer) :=
  let lowerKey := goToLower setupKey
  match getAccountSetupKeyByKey acc lowerKey with
  | none => Except.error ErrCode.notFound
  | some sk =>
    if !(SetupKey.IsValid now sk) then
      Except.error ErrCode.failedPrecondition
    else
      let takenIps := acc.Peers.map (fun e => e.2.IP)
      let nextIp := AllocatePeerIP acc.netBase acc.netSize takenIps
      let newPeer : Peer := { Key := peer.Key, SetupKey := sk.Key, IP := nextIp }
      Except.ok
        ({ acc with
            Peers := upsert acc.Peers newPeer.Key newPeer
            SetupKeys := upsert acc.SetupKeys sk.Key (SetupKey.IncrementUsage sk) },
          newPeer)

/-- Embedding of AccountManager.DeletePeer restricted to the account
mutation (management/server/peer.go lines 117-163 delegate the
removal to Store.DeletePeer; the fan-out notifications do not touch
the account state). -/
def AccountManager.DeletePeer (acc : Account) (peerKey : String) : Account :=
  { acc with Peers := acc.Peers.filter (fun e => !(e.1 == peerKey)) }

/-- One account mutation for the reachability statement: a registration
attempt, or a peer removal. -/
inductive AccountOp
  | add (now : Nat) (setupKey : String) (peer : PeerInfo)
  | remove (peerKey : String)

/-- Apply one operation to the account; a failed AddPeer leaves the
account untouched (the source returns the error before saving). -/
def applyAccountOp (acc : Account) : AccountOp → Account
  | AccountOp.add now k p =>
    match AccountManager.AddPeer acc now k p with
    | Except.ok (acc2, _) => acc2
    | Except.error _ => acc
  | AccountOp.remove pk => AccountManager.DeletePeer acc pk

/-- Fold a sequence of account operations. -/
def applyAccountOps (acc : Account) (ops : List AccountOp) : Account :=
  ops.foldl applyAccountOp acc

/-- The tunnel IPs of the account peers. -/
def accountIPs (acc : Account) : List (Option Nat) :=
  acc.Peers.map (fun e => e.2.IP)

/-- The IP invariant of claim C9: the peers' tunnel IPs are pairwise
distinct and every one is an allocated host address of the account
subnet. -/
def goodIPs (acc : Account) : Prop :=
  (accountIPs acc).Nodup ∧
  ∀ ip ∈ accountIPs acc, ip ∈ (hostAddrs acc.netBase acc.netSize).map some

/-- Whether one operation runs while the account can still allocate: an
addition finds a free host address, a removal always qualifies. -/
def allocOk (acc : Account) : AccountOp → Prop
  | AccountOp.add _ _ _ =>
    (AllocatePeerIP acc.netBase acc.netSize (accountIPs acc)).isSome = true
  | AccountOp.remove _ => True

/-- A sequence of operations in which every addition is performed while
the subnet still has a free host address. -/
def goodTrace : Account → List AccountOp → Prop
  | _, [] => True
  | acc, op :: ops => allocOk acc op ∧ goodTrace (applyAccountOp acc op) ops

/-- Embedding of the old FileStore types of unnamed/part_013 (package
management): a setup key reduced to its token string. -/
structure MgmtSetupKey where
  Key : String
deriving DecidableEq, Repr

/-- A peer of the old management package (unnamed/part_013 line 97). -/
structure MgmtPeer where
  Key : String
  SetupKey : MgmtSetupKey
deriving DecidableEq, Repr

/-- An account of the old management package as read by
FileStore.AddPeer: setup keys and peers, both keyed by strings. -/
structure MgmtAccount where
  Id : String
  SetupKeys : List (String × MgmtSetupKey)
  Peers : List (String × MgmtPeer)
deriving DecidableEq, Repr

/-- The FileStore of unnamed/part_013: accounts by id plus the
lower-cased setup-key-to-account index built on restore. -/
structure FileStore where
  Accounts : List (String × MgmtAccount)
  SetupKeyId2AccountId : List (String × String)
deriving DecidableEq, Repr

/-- Embedding of FileStore.AddPeer (unnamed/part_013 lines 78-103):
look the lower-cased key up in the index, fetch the account, look the
lower-cased key up in the account keys, and add the peer (persist is
external I/O and elided). -/
def FileStore.AddPeer (s : FileStore) (setupKey : String) (peerKey : String) :
    Except ErrCode FileStore :=
  match lookupA s.SetupKeyId2AccountId (goToLower setupKey) with
  | none => Except.error ErrCode.notFound
  | some accountId =>
    match lookupA s.Accounts accountId with
    | none => Except.error ErrCode.internal
    | some account =>
      match lookupA account.SetupKeys (goToLower setupKey) with
      | none => Except.error ErrCode.internal
      | some key =>
        let updated := { account with
          Peers := upsert account.Peers peerKey { Key := peerKey, SetupKey := key } }
        Except.ok { s with Accounts := upsert s.Accounts accountId updated }

/-- The server-side network map of one peer as read by toSyncResponse
(unnamed/part_017 lines 457-482): the account serial and the remote
peers visible to that peer, reduced to their public keys. -/
structure NetworkMapSrv where
  Serial : Nat
  Peers : List String
deriving DecidableEq, Repr

/-- A SyncResponse as far as the stream contract observes it
(unnamed/part_017 proto.SyncResponse): remote peers, the
RemotePeersIsEmpty sentinel and the network map serial. -/
structure SyncResponseMsg where
  RemotePeers : List String
  RemotePeersIsEmpty : Bool
  Serial : Nat
deriving DecidableEq, Repr

/-- Embedding of toSyncResponse (unnamed/part_017 lines 457-482):
RemotePeersIsEmpty is the length test on the remote peer list and
Serial is the account network serial. -/
def toSyncResponse (nm : NetworkMapSrv) : SyncResponseMsg :=
  { RemotePeers := nm.Peers
    RemotePeersIsEmpty := decide (nm.Peers.length = 0)
    Serial := nm.Serial }

/-- One event observed by the Sync stream loop (unnamed/part_017 lines
146-182): an update arriving on the peer mailbox channel, the mailbox
channel found closed, or the stream context finishing. -/
inductive SyncEvent
  | update (u : SyncResponseMsg)
  | channelClosed
  | ctxDone

/-- The Sync select loop (unnamed/part_017 lines 146-182) run over a
finite event trace: returns the updates it forwarded in order, then
whether it marked the peer disconnected, then whether it closed the
peer mailbox channel. An update event forwards the message; a closed
mailbox returns nil at once without marking anything; a finished
context closes the mailbox channel and marks the peer disconnected.
Encryption and the gRPC send are external I/O modelled as succeeding
(their failure paths return Internal without further effects). -/
def syncLoop : List SyncEvent → List SyncResponseMsg × Bool × Bool
  | [] => ([], false, false)
  | SyncEvent.update u :: rest =>
    let r := syncLoop rest
    (u :: r.1, r.2.1, r.2.2)
  | SyncEvent.channelClosed :: _ => ([], false, false)
  | SyncEvent.ctxDone :: _ => ([], true, true)

/-- What the embedded Sync handler did over one stream. -/
structure SyncOutcome where
  sent : List SyncResponseMsg
  markedDisconnected : Bool
  closedChannel : Bool
deriving DecidableEq, Repr

/-- Embedding of GRPCServer.Sync (unnamed/part_017 lines 98-183) for a
registered peer whose request decrypts: sendInitialSync (lines
490-523) sends toSyncResponse of the network map taken at stream-open
time, the mailbox channel is created, the peer is marked connected,
and the loop drains the mailbox until the stream ends. -/
def GRPCServer.Sync (nm : NetworkMapSrv) (events : List SyncEvent) : SyncOutcome :=
  let r := syncLoop events
  { sent := toSyncResponse nm :: r.1
    markedDisconnected := r.2.1
    closedChannel := r.2.2 }

/-- Result of the peer lookup at the top of GRPCServer.Login
(unnamed/part_017 line 302): the peer is registered, or the store
reports NotFound, or the store fails otherwise. -/
inductive PeerLookup
  | found
  | notFound
  | otherError
deriving DecidableEq, Repr

/-- What a Login run produced: a response for an already-registered
peer, a response after registering a brand-new peer, or an error. -/
inductive LoginOutcome
  | okExisting
  | okRegistered
  | err (code : ErrCode)
deriving DecidableEq, Repr

/-- Embedding of the decision structure of GRPCServer.Login
(unnamed/part_017 lines 281-375): an unparsable key or an
undecryptable body gives InvalidArgument; an unregistered peer with
neither a JWT token nor a setup key gives PermissionDenied; with a
credential present the registration flow runs (its result is the
registerResult parameter, produced by registerPeer); a store failure
other than NotFound gives Internal; a registered peer logs straight
in. Meta and SSH-key updates do not affect the outcome. -/
def GRPCServer.Login (parseOk decryptOk : Bool) (lookup : PeerLookup)
    (jwtToken setupKey : String) (registerResult : Except ErrCode Unit) : LoginOutcome :=
  if !parseOk then LoginOutcome.err ErrCode.invalidArgument
  else if !decryptOk then LoginOutcome.err ErrCode.invalidArgument
  else
    match lookup with
    | PeerLookup.notFound =>
      if jwtToken == "" && setupKey == "" then
        LoginOutcome.err ErrCode.permissionDenied
      else
        match registerResult with
        | Except.error e => LoginOutcome.err e
        | Except.ok _ => LoginOutcome.okRegistered
    | PeerLookup.otherError => LoginOutcome.err ErrCode.internal
    | PeerLookup.found => LoginOutcome.okExisting

/-- The network map message received by the Client Engine
(proto.NetworkMap as used by engine_test.go): serial, remote peer
keys and the RemotePeersIsEmpty sentinel. -/
structure NetworkMapMsg where
  Serial : Nat
  RemotePeers : List String
  RemotePeersIsEmpty : Bool
deriving DecidableEq, Repr

/-- The Client Engine state as observed by engine_test.go: the keys of
the peer-connection table and the last applied serial. -/
structure Engine where
  peerConns : List String
  networkSerial : Nat
deriving DecidableEq, Repr

/-- The peer list an accepted update leaves behind. Modelled from the
spec: engine.go is not among the sources (only engine_test.go is);
spec section 4.4 applies the additions and removals that take the
table to the update peer list, and section 3 gives the
RemotePeersIsEmpty sentinel separating no-change from empty-list. -/
def applyRemotePeers (e : Engine) (m : NetworkMapMsg) : List String :=
  if m.RemotePeers.isEmpty && !m.RemotePeersIsEmpty then e.peerConns else m.RemotePeers

/-- The Engine update step. Modelled from the spec: engine.go is not
among the sources; spec section 4.4 step 1 ignores an update whose
serial is at most the last applied serial, and otherwise applies the
peer diff and sets the stored serial to the update serial. -/
def updateNetworkMap (e : Engine) (m : NetworkMapMsg) : Engine :=
  if m.Serial ≤ e.networkSerial then e
  else { peerConns := applyRemotePeers e m, networkSerial := m.Serial }

/-- The serials committed (accepted and applied) by the Engine over a
sequence of updates. -/
def commitSerials (e : Engine) : List NetworkMapMsg → List Nat
  | [] => []
  | m :: ms =>
    if m.Serial ≤ e.networkSerial then commitSerials e ms
    else m.Serial :: commitSerials (updateNetworkMap e m) ms

theorem goCharLess_trich (a b : Char) (h : a ≠ b) :
    goCharLess a b = true ∨ goCharLess b a = true := by
  unfold goCharLess
  rcases Nat.lt_trichotomy a.toNat b.toNat with h1 | h1 | h1
  · left; simpa using h1
  · exact absurd (Char.eq_of_val_eq (UInt32.toNat.inj h1)) h
  · right; simpa using h1

theorem goCharLess_asymm (a b : Char) (h : goCharLess a b = true) :
    goCharLess b a = false := by
  unfold goCharLess at h ⊢
  simp only [decide_eq_true_eq] at h
  simpa using Nat.le_of_lt h

theorem goLess_trich (a b : List Char) (h : a ≠ b) :
    goLess a b = true ∨ goLess b a = true := by
  induction a generalizing b with
  | nil =>
    cases b with
    | nil => exact absurd rfl h
    | cons c cs => left; rfl
  | cons c cs ih =>
    cases b with
    | nil => right; rfl
    | cons d ds =>
      by_cases hcd : c = d
      · subst hcd
        have hne : cs ≠ ds := by
          intro he; exact h (by rw [he])
        rcases ih ds hne with h1 | h1
        · left; simp [goLess, goCharLess, h1]
        · right; simp [goLess, goCharLess, h1]
      · rcases goCharLess_trich c d hcd with h1 | h1
        · left; simp [goLess, h1]
        · right; simp [goLess, h1]

theorem goLess_asymm (a b : List Char) (h : goLess a b = true) :
    goLess b a = false := by
  induction a generalizing b with
  | nil =>
    cases b with
    | nil => simp [goLess] at h
    | cons d ds => rfl
  | cons c cs ih =>
    cases b with
    | nil => simp [goLess] at h
    | cons d ds =>
      by_cases h1 : goCharLess c d = true
      · have h2 := goCharLess_asymm c d h1
        simp [goLess, h1, h2]
      · by_cases h2 : goCharLess d c = true
        · simp [goLess, h1, h2] at h
        · simp [goLess, h1, h2] at h ⊢
          exact ih ds h

theorem string_data_ne (a b : String) (h : a ≠ b) : a.data ≠ b.data := by
  intro he
  exact h (congrArg String.mk he)

/-- C3: for every selected ICE candidate pair with an is-public
classification of each address, shouldUseProxy chooses proxy if
either candidate is relay; otherwise direct if the remote candidate
is Host with a public IP; otherwise direct if the local candidate is
Host with a public IP; otherwise direct if both candidates are Host
and both IPs are private; and proxy in every remaining case — that
is, the source decision coincides with the cascade worded by the
specification. -/
theorem shouldUseProxy_matches_spec :
    ∀ pair : CandidatePair, shouldUseProxy pair = specProxyDecision pair.Local pair.Remote := by
  intro ⟨⟨lt, lp⟩, ⟨rt, rp⟩⟩
  cases lt <;> cases rt <;> cases lp <;> cases rp <;> rfl

/-- C4: for distinct public keys a and b, the Conn at the host with
local key a and remote key b and the Conn at the host with local key
b and remote key a elect exactly one controlling side — the one
whose local key compares greater — and the controlling side calls
Dial while the other calls Accept. -/
theorem controller_election_symmetric (a b : String) (h : a ≠ b) :
    ((NewConn ⟨b, a⟩).isControlling = true ∧ (NewConn ⟨a, b⟩).isControlling = false ∧
      (NewConn ⟨b, a⟩).openIceRole = IceRole.dial ∧
      (NewConn ⟨a, b⟩).openIceRole = IceRole.accept) ∨
    ((NewConn ⟨b, a⟩).isControlling = false ∧ (NewConn ⟨a, b⟩).isControlling = true ∧
      (NewConn ⟨b, a⟩).openIceRole = IceRole.accept ∧
      (NewConn ⟨a, b⟩).openIceRole = IceRole.dial) := by
  have hdata : a.data ≠ b.data := string_data_ne a b h
  have hba : b.data ≠ a.data := fun he => hdata he.symm
  rcases goLess_trich b.data a.data hba with h1 | h1
  · left
    have h2 := goLess_asymm b.data a.data h1
    refine ⟨h1, h2, ?_, ?_⟩
    · simp [Conn.openIceRole, Conn.isControlling, NewConn, goStringGreater, h1]
    · simp [Conn.openIceRole, Conn.isControlling, NewConn, goStringGreater, h2]
  · right
    have h2 := goLess_asymm a.data b.data h1
    refine ⟨h2, h1, ?_, ?_⟩
    · simp [Conn.openIceRole, Conn.isControlling, NewConn, goStringGreater, h2]
    · simp [Conn.openIceRole, Conn.isControlling, NewConn, goStringGreater, h1]

theorem controller_election_symmetric_witness :
    ("b" ≠ "a") ∧
    (((NewConn ⟨"a", "b"⟩).isControlling = true ∧ (NewConn ⟨"b", "a"⟩).isControlling = false ∧
      (NewConn ⟨"a", "b"⟩).openIceRole = IceRole.dial ∧
      (NewConn ⟨"b", "a"⟩).openIceRole = IceRole.accept) ∨
    ((NewConn ⟨"a", "b"⟩).isControlling = false ∧ (NewConn ⟨"b", "a"⟩).isControlling = true ∧
      (NewConn ⟨"a", "b"⟩).openIceRole = IceRole.accept ∧
      (NewConn ⟨"b", "a"⟩).openIceRole = IceRole.dial)) :=
  ⟨by decide, controller_election_symmetric "b" "a" (by decide)⟩

/-- C6 counterexample: the claim asserts the offer and answer mailboxes
have capacity 1, but NewConn builds them with make(chan T), capacity
0 — so a fresh Conn with nobody receiving discards an incoming offer,
while a capacity-1 mailbox in the same situation would accept it. -/
theorem mailbox_capacity_counterexample :
    (NewConn ⟨"peerA", "peerB"⟩).remoteOffersCh.capacity = 0 ∧
    (NewConn ⟨"peerA", "peerB"⟩).remoteAnswerCh.capacity = 0 ∧
    ¬ (NewConn ⟨"peerA", "peerB"⟩).remoteOffersCh.capacity = 1 ∧
    ((NewConn ⟨"peerA", "peerB"⟩).OnRemoteOffer ⟨"uf", "pw"⟩).2 = false ∧
    (GoChan.trySend (mkChan 1)).1 = true := by
  refine ⟨rfl, rfl, by decide, rfl, rfl⟩

/-- C6 amended: the offer and answer mailboxes of a PeerConn are
unbuffered (capacity 0) rendezvous channels; OnRemoteOffer and
OnRemoteAnswer never block (they are total select-with-default
steps): the message is accepted, and true returned, exactly when
Open is currently waiting to receive on that mailbox, and otherwise
the message is discarded, false is returned and the connection is
left unchanged. -/
theorem mailbox_unbuffered_non_blocking (cfg : ConnConfig) (conn : Conn)
    (cred : IceCredentials)
    (hoff : conn.remoteOffersCh.capacity = 0)
    (hans : conn.remoteAnswerCh.capacity = 0) :
    (NewConn cfg).remoteOffersCh = mkChan 0 ∧
    (NewConn cfg).remoteAnswerCh = mkChan 0 ∧
    (conn.OnRemoteOffer cred).2 = decide (0 < conn.remoteOffersCh.waitingReceivers) ∧
    (conn.OnRemoteAnswer cred).2 = decide (0 < conn.remoteAnswerCh.waitingReceivers) ∧
    ((conn.OnRemoteOffer cred).2 = false → (conn.OnRemoteOffer cred).1 = conn) ∧
    ((conn.OnRemoteAnswer cred).2 = false → (conn.OnRemoteAnswer cred).1 = conn) := by
  refine ⟨rfl, rfl, ?_, ?_, ?_, ?_⟩ <;>
    simp only [Conn.OnRemoteOffer, Conn.OnRemoteAnswer, GoChan.trySend, hoff, hans] <;>
    by_cases h1 : 0 < conn.remoteOffersCh.waitingReceivers <;>
    by_cases h2 : 0 < conn.remoteAnswerCh.waitingReceivers <;>
    simp [h1, h2]

theorem mailbox_unbuffered_non_blocking_witness :
    (({ NewConn ⟨"peerA", "peerB"⟩ with
        remoteOffersCh := ⟨0, 0, 1⟩ } : Conn).remoteOffersCh.capacity = 0) ∧
    (({ NewConn ⟨"peerA", "peerB"⟩ with
        remoteOffersCh := ⟨0, 0, 1⟩ } : Conn).remoteAnswerCh.capacity = 0) ∧
    ((({ NewConn ⟨"peerA", "peerB"⟩ with
        remoteOffersCh := ⟨0, 0, 1⟩ } : Conn).OnRemoteOffer ⟨"u", "p"⟩).2 = true) ∧
    ((({ NewConn ⟨"peerA", "peerB"⟩ with
        remoteOffersCh := ⟨0, 0, 1⟩ } : Conn).OnRemoteAnswer ⟨"u", "p"⟩).2 = false) := by
  have h := mailbox_unbuffered_non_blocking ⟨"peerA", "peerB"⟩
    ({ NewConn ⟨"peerA", "peerB"⟩ with remoteOffersCh := ⟨0, 0, 1⟩ }) ⟨"u", "p"⟩ rfl rfl
  exact ⟨rfl, rfl, h.2.2.1, h.2.2.2.1⟩

/-- C10: Conn.Close on a connection whose Open is not parked on the
close channel (for instance a Conn that was created and never
opened) takes the non-blocking default branch: the state, its status
field included, is unchanged and the result is the
ConnectionAlreadyClosed error. -/
theorem close_without_waiter (conn : Conn)
    (hcap : conn.closeCh.capacity = 0)
    (hrecv : conn.closeCh.waitingReceivers = 0) :
    Conn.Close conn = (conn, CloseResult.connectionAlreadyClosedError) ∧
    (Conn.Close conn).1.status = conn.status ∧
    (∀ cfg : ConnConfig,
      Conn.Close (NewConn cfg) = (NewConn cfg, CloseResult.connectionAlreadyClosedError)) := by
  have hmain : Conn.Close conn = (conn, CloseResult.connectionAlreadyClosedError) := by
    simp [Conn.Close, GoChan.trySend, hcap, hrecv]
  refine ⟨hmain, by rw [hmain], ?_⟩
  intro cfg
  simp [Conn.Close, GoChan.trySend, NewConn, mkChan]

theorem close_without_waiter_witness :
    Conn.Close (NewConn ⟨"k", "l"⟩) =
      (NewConn ⟨"k", "l"⟩, CloseResult.connectionAlreadyClosedError) :=
  (close_without_waiter (NewConn ⟨"k", "l"⟩) rfl rfl).1

theorem syncLoop_updates (us : List SyncResponseMsg) (rest : List SyncEvent) :
    syncLoop (us.map SyncEvent.update ++ rest) =
      (us ++ (syncLoop rest).1, (syncLoop rest).2) := by
  induction us with
  | nil => simp [syncLoop]
  | cons u t ih => simp [syncLoop, ih]

/-- C2 counterexample: a Sync stream whose mailbox channel is closed by
another actor (for instance a displacing stream for the same peer)
terminates, yet the handler neither marks the peer disconnected nor
closes the channel — refuting the claim that every stream
termination marks the peer disconnected. -/
theorem sync_termination_counterexample :
    (GRPCServer.Sync ⟨7, ["peerX"]⟩ [SyncEvent.channelClosed]).markedDisconnected = false ∧
    (GRPCServer.Sync ⟨7, ["peerX"]⟩ [SyncEvent.channelClosed]).closedChannel = false ∧
    (GRPCServer.Sync ⟨7, ["peerX"]⟩ [SyncEvent.channelClosed]).sent =
      [toSyncResponse ⟨7, ["peerX"]⟩] :=
  ⟨rfl, rfl, rfl⟩

/-- C2 amended: for every Sync call by a registered peer, the server
sends one full SyncResponse computed from the account state at
stream-open time before delivering any mailbox update; subsequent
messages are exactly the updates drained from the peer mailbox in
arrival order; and when the stream terminates because the client
connection finished (context done) the peer is marked disconnected
and the handler closes the mailbox channel, while a termination
caused by the mailbox channel being closed elsewhere marks nothing
and closes nothing. -/
theorem sync_stream_contract (nm : NetworkMapSrv) (us : List SyncResponseMsg)
    (term : SyncEvent)
    (hterm : term = SyncEvent.channelClosed ∨ term = SyncEvent.ctxDone) :
    (GRPCServer.Sync nm (us.map SyncEvent.update ++ [term])).sent =
      toSyncResponse nm :: us ∧
    (term = SyncEvent.ctxDone →
      (GRPCServer.Sync nm (us.map SyncEvent.update ++ [term])).markedDisconnected = true ∧
      (GRPCServer.Sync nm (us.map SyncEvent.update ++ [term])).closedChannel = true) ∧
    (term = SyncEvent.channelClosed →
      (GRPCServer.Sync nm (us.map SyncEvent.update ++ [term])).markedDisconnected = false ∧
      (GRPCServer.Sync nm (us.map SyncEvent.update ++ [term])).closedChannel = false) := by
  rcases hterm with h | h <;> subst h <;>
    simp [GRPCServer.Sync, syncLoop_updates, syncLoop]

theorem sync_stream_contract_witness :
    ((SyncEvent.ctxDone = SyncEvent.channelClosed ∨ SyncEvent.ctxDone = SyncEvent.ctxDone) ∧
      (GRPCServer.Sync ⟨3, ["peerA", "peerB"]⟩
        ([⟨["peerB"], false, 4⟩].map SyncEvent.update ++ [SyncEvent.ctxDone])).sent =
          toSyncResponse ⟨3, ["peerA", "peerB"]⟩ :: [⟨["peerB"], false, 4⟩]) ∧
    (GRPCServer.Sync ⟨3, ["peerA", "peerB"]⟩
      ([⟨["peerB"], false, 4⟩].map SyncEvent.update ++ [SyncEvent.ctxDone])).markedDisconnected
        = true :=
  ⟨⟨Or.inr rfl,
      (sync_stream_contract ⟨3, ["peerA", "peerB"]⟩ [⟨["peerB"], false, 4⟩]
        SyncEvent.ctxDone (Or.inr rfl)).1⟩,
    ((sync_stream_contract ⟨3, ["peerA", "peerB"]⟩ [⟨["peerB"], false, 4⟩]
        SyncEvent.ctxDone (Or.inr rfl)).2.1 rfl).1⟩

/-- C7 counterexample: a Login whose key is unregistered and that
carries neither a setup key nor a JWT token fails with
PermissionDenied, not with the InvalidArgument code the claim
asserts. -/
theorem login_missing_credentials_counterexample :
    GRPCServer.Login true true PeerLookup.notFound "" "" (Except.ok ()) =
      LoginOutcome.err ErrCode.permissionDenied ∧
    GRPCServer.Login true true PeerLookup.notFound "" "" (Except.ok ()) ≠
      LoginOutcome.err ErrCode.invalidArgument := by
  refine ⟨rfl, by decide⟩

/-- C7 amended: for every Login request whose public key does not
belong to a registered peer and that carries neither a setup key nor
a JWT token, Login fails with the PermissionDenied error code and
registers no peer, whatever the registration flow would have
returned. -/
theorem login_missing_credentials (registerResult : Except ErrCode Unit) :
    GRPCServer.Login true true PeerLookup.notFound "" "" registerResult =
      LoginOutcome.err ErrCode.permissionDenied ∧
    GRPCServer.Login true true PeerLookup.notFound "" "" registerResult ≠
      LoginOutcome.okRegistered ∧
    GRPCServer.Login true true PeerLookup.notFound "" "" registerResult ≠
      LoginOutcome.okExisting := by
  have h : GRPCServer.Login true true PeerLookup.notFound "" "" registerResult =
      LoginOutcome.err ErrCode.permissionDenied := rfl
  refine ⟨h, ?_, ?_⟩ <;> rw [h] <;> intro hc <;> exact LoginOutcome.noConfusion hc

theorem updateNetworkMap_serial_of_applied (e : Engine) (m : NetworkMapMsg)
    (h : ¬ m.Serial ≤ e.networkSerial) :
    (updateNetworkMap e m).networkSerial = m.Serial := by
  simp [updateNetworkMap, h]

theorem commitSerials_gt (ms : List NetworkMapMsg) (e : Engine) :
    ∀ x ∈ commitSerials e ms, e.networkSerial < x := by
  induction ms generalizing e with
  | nil => intro x hx; simp [commitSerials] at hx
  | cons m t ih =>
    intro x hx
    by_cases h : m.Serial ≤ e.networkSerial
    · rw [commitSerials, if_pos h] at hx
      exact ih e x hx
    · rw [commitSerials, if_neg h] at hx
      rcases List.mem_cons.mp hx with h1 | h1
      · subst h1; exact Nat.lt_of_not_le h
      · have h2 := ih (updateNetworkMap e m) x h1
        rw [updateNetworkMap_serial_of_applied e m h] at h2
        exact Nat.lt_trans (Nat.lt_of_not_le h) h2

theorem commitSerials_chain (ms : List NetworkMapMsg) (e : Engine) :
    List.Chain' (fun x y => x < y) (commitSerials e ms) := by
  induction ms generalizing e with
  | nil => simp [commitSerials]
  | cons m t ih =>
    by_cases h : m.Serial ≤ e.networkSerial
    · rw [commitSerials, if_pos h]
      exact ih e
    · rw [commitSerials, if_neg h]
      refine List.chain'_cons'.mpr ⟨?_, ih (updateNetworkMap e m)⟩
      intro b hb
      have hmem : b ∈ commitSerials (updateNetworkMap e m) t := List.mem_of_mem_head? hb
      have h2 := commitSerials_gt t (updateNetworkMap e m) b hmem
      rwa [updateNetworkMap_serial_of_applied e m h] at h2

/-- C1: an update whose serial is at most the last applied serial
leaves the Engine — its peer-connection table and its stored serial —
unchanged; an update with a greater serial installs the update peer
list (additions and removals applied, honouring the empty-list
sentinel) and sets the stored serial to the update serial; and over
any sequence of updates the serials the Engine commits form a
strictly increasing sequence. -/
theorem updateNetworkMap_serial_discipline (e : Engine) (m : NetworkMapMsg) :
    (m.Serial ≤ e.networkSerial → updateNetworkMap e m = e) ∧
    (e.networkSerial < m.Serial →
      (updateNetworkMap e m).networkSerial = m.Serial ∧
      (updateNetworkMap e m).peerConns = applyRemotePeers e m) ∧
    (∀ ms : List NetworkMapMsg, List.Chain' (fun x y => x < y) (commitSerials e ms)) := by
  refine ⟨?_, ?_, fun ms => commitSerials_chain ms e⟩
  · intro h
    simp [updateNetworkMap, h]
  · intro h
    have hn : ¬ m.Serial ≤ e.networkSerial := Nat.not_le_of_lt h
    constructor
    · exact updateNetworkMap_serial_of_applied e m hn
    · simp [updateNetworkMap, hn]

theorem updateNetworkMap_serial_discipline_witness :
    ((0 : Nat) ≤ 2 ∧
      updateNetworkMap ⟨["A", "B"], 2⟩ ⟨0, ["A", "B", "C"], false⟩ = ⟨["A", "B"], 2⟩) ∧
    ((2 : Nat) < 4 ∧
      (updateNetworkMap ⟨["A", "B"], 2⟩ ⟨4, ["B", "C"], false⟩).networkSerial = 4 ∧
      (updateNetworkMap ⟨["A", "B"], 2⟩ ⟨4, ["B", "C"], false⟩).peerConns =
        applyRemotePeers ⟨["A", "B"], 2⟩ ⟨4, ["B", "C"], false⟩) ∧
    List.Chain' (fun x y => x < y)
      (commitSerials ⟨["A", "B"], 2⟩ [⟨4, ["B", "C"], false⟩, ⟨0, [], true⟩, ⟨5, [], true⟩]) :=
  ⟨⟨by decide, (updateNetworkMap_serial_discipline ⟨["A", "B"], 2⟩ ⟨0, ["A", "B", "C"], false⟩).1
      (by decide)⟩,
    ⟨by decide, (updateNetworkMap_serial_discipline ⟨["A", "B"], 2⟩ ⟨4, ["B", "C"], false⟩).2.1
      (by decide)⟩,
    (updateNetworkMap_serial_discipline ⟨["A", "B"], 2⟩ ⟨4, ["B", "C"], false⟩).2.2
      [⟨4, ["B", "C"], false⟩, ⟨0, [], true⟩, ⟨5, [], true⟩]⟩

/-- C8 counterexample: AccountManager.AddPeer normalises the supplied
setup key by upper-casing, not lower-casing: on a store whose key is
the upper-cased token, the source accepts the lower-case variant
while the lower-casing lookup the claim describes fails with
NotFound. -/
theorem addPeer_lowercase_counterexample :
    (AccountManager.AddPeer
        ⟨"acct", [("SETUPKEYA", ⟨"SETUPKEYA", SetupKeyType.reusable, false, none, 0⟩)],
          [], 100, 8⟩
        0 "setupkeya" ⟨"pA", "pA"⟩).isOk = true ∧
    specAddPeerLowercase
        ⟨"acct", [("SETUPKEYA", ⟨"SETUPKEYA", SetupKeyType.reusable, false, none, 0⟩)],
          [], 100, 8⟩
        0 "setupkeya" ⟨"pA", "pA"⟩ = Except.error ErrCode.notFound := by
  constructor
  · rfl
  · rfl

/-- C8 amended: AccountManager.AddPeer normalises the supplied setup
key by upper-casing it before matching, while the FileStore of the
management package lower-cases for its index lookup; in both cases
the result of registration is invariant under case variants of the
supplied key string (strings with equal upper-casing, respectively
equal lower-casing). -/
theorem addPeer_case_insensitive (acc : Account) (now : Nat) (k1 k2 : String)
    (p : PeerInfo) (s : FileStore) (pk : String)
    (hUp : goToUpper k1 = goToUpper k2) (hLow : goToLower k1 = goToLower k2) :
    AccountManager.AddPeer acc now k1 p = AccountManager.AddPeer acc now k2 p ∧
    FileStore.AddPeer s k1 pk = FileStore.AddPeer s k2 pk := by
  constructor
  · unfold AccountManager.AddPeer
    rw [hUp]
  · unfold FileStore.AddPeer
    rw [hLow]

theorem addPeer_case_insensitive_witness :
    (goToUpper "AbC" = goToUpper "aBc" ∧ goToLower "AbC" = goToLower "aBc") ∧
    AccountManager.AddPeer
        ⟨"acct", [("ABC", ⟨"ABC", SetupKeyType.reusable, false, none, 0⟩)], [], 100, 8⟩
        0 "AbC" ⟨"pA", "pA"⟩ =
      AccountManager.AddPeer
        ⟨"acct", [("ABC", ⟨"ABC", SetupKeyType.reusable, false, none, 0⟩)], [], 100, 8⟩
        0 "aBc" ⟨"pA", "pA"⟩ ∧
    FileStore.AddPeer ⟨[("acct", ⟨"acct", [("abc", ⟨"abc"⟩)], []⟩)], [("abc", "acct")]⟩
        "AbC" "pk" =
      FileStore.AddPeer ⟨[("acct", ⟨"acct", [("abc", ⟨"abc"⟩)], []⟩)], [("abc", "acct")]⟩
        "aBc" "pk" :=
  ⟨⟨rfl, rfl⟩,
    (addPeer_case_insensitive
      ⟨"acct", [("ABC", ⟨"ABC", SetupKeyType.reusable, false, none, 0⟩)], [], 100, 8⟩
      0 "AbC" "aBc" ⟨"pA", "pA"⟩
      ⟨[("acct", ⟨"acct", [("abc", ⟨"abc"⟩)], []⟩)], [("abc", "acct")]⟩ "pk"
      rfl rfl).1,
    (addPeer_case_insensitive
      ⟨"acct", [("ABC", ⟨"ABC", SetupKeyType.reusable, false, none, 0⟩)], [], 100, 8⟩
      0 "AbC" "aBc" ⟨"pA", "pA"⟩
      ⟨[("acct", ⟨"acct", [("abc", ⟨"abc"⟩)], []⟩)], [("abc", "acct")]⟩ "pk"
      rfl rfl).2⟩

theorem hostAddrs_pairwise (base size : Nat) :
    (hostAddrs base size).Pairwise (fun a b => a < b) := by
  unfold hostAddrs
  rw [List.pairwise_map]
  exact (List.pairwise_lt_range _).imp (fun hab => by omega)

theorem AllocatePeerIP_spec (base size : Nat) (taken : List (Option Nat)) (a : Nat)
    (h : AllocatePeerIP base size taken = some a) :
    a ∈ hostAddrs base size ∧ some a ∉ taken ∧
    ∀ b ∈ hostAddrs base size, some b ∉ taken → a ≤ b := by
  unfold AllocatePeerIP at h
  cases hL : List.filter (fun ip => decide (some ip ∉ taken)) (hostAddrs base size) with
  | nil => rw [hL] at h; cases h
  | cons x rest =>
    rw [hL] at h
    simp only [List.head?_cons, Option.some.injEq] at h
    subst h
    have hmem : x ∈ List.filter (fun ip => decide (some ip ∉ taken)) (hostAddrs base size) := by
      rw [hL]
      exact List.mem_cons_self x rest
    rw [List.mem_filter] at hmem
    have hpw : (List.filter (fun ip => decide (some ip ∉ taken)) (hostAddrs base size)).Pairwise
        (fun p q => p < q) :=
      (hostAddrs_pairwise base size).sublist (List.filter_sublist _)
    rw [hL, List.pairwise_cons] at hpw
    refine ⟨hmem.1, by simpa using hmem.2, ?_⟩
    intro b hb hbf
    have hbmem : b ∈ List.filter (fun ip => decide (some ip ∉ taken)) (hostAddrs base size) := by
      rw [List.mem_filter]
      exact ⟨hb, by simpa using hbf⟩
    rw [hL] at hbmem
    rcases List.mem_cons.mp hbmem with h1 | h1
    · exact Nat.le_of_eq h1.symm
    · exact Nat.le_of_lt (hpw.1 b h1)

theorem mem_upsert_ips (l : List (String × Peer)) (k : String) (v : Peer) (x : Option Nat)
    (hx : x ∈ (upsert l k v).map (fun e => e.2.IP)) :
    x = v.IP ∨ x ∈ l.map (fun e => e.2.IP) := by
  induction l with
  | nil =>
    simp [upsert] at hx
    exact Or.inl hx
  | cons e t ih =>
    obtain ⟨k0, v0⟩ := e
    by_cases h : k0 = k
    · simp only [upsert, if_pos h, List.map_cons, List.mem_cons] at hx
      rcases hx with h1 | h1
      · exact Or.inl h1
      · exact Or.inr (by simp only [List.map_cons, List.mem_cons]; exact Or.inr h1)
    · simp only [upsert, if_neg h, List.map_cons, List.mem_cons] at hx
      rcases hx with h1 | h1
      · exact Or.inr (by simp only [List.map_cons, List.mem_cons]; exact Or.inl h1)
      · rcases ih h1 with h2 | h2
        · exact Or.inl h2
        · exact Or.inr (by simp only [List.map_cons, List.mem_cons]; exact Or.inr h2)

theorem nodup_upsert_ips (l : List (String × Peer)) (k : String) (v : Peer)
    (hnd : (l.map (fun e => e.2.IP)).Nodup)
    (hnew : v.IP ∉ l.map (fun e => e.2.IP)) :
    ((upsert l k v).map (fun e => e.2.IP)).Nodup := by
  induction l with
  | nil => simp [upsert]
  | cons e t ih =>
    obtain ⟨k0, v0⟩ := e
    simp only [List.map_cons, List.nodup_cons] at hnd
    simp only [List.map_cons, List.mem_cons, not_or] at hnew
    by_cases h : k0 = k
    · simp only [upsert, if_pos h, List.map_cons, List.nodup_cons]
      exact ⟨hnew.2, hnd.2⟩
    · simp only [upsert, if_neg h, List.map_cons, List.nodup_cons]
      constructor
      · intro hmem
        rcases mem_upsert_ips t k v v0.IP hmem with h1 | h1
        · exact hnew.1 h1.symm
        · exact hnd.1 h1
      · exact ih hnd.2 hnew.2

theorem deletePeer_ips_sublist (l : List (String × Peer)) (pk : String) :
    ((l.filter (fun e => !(e.1 == pk))).map (fun e => e.2.IP)).Sublist
      (l.map (fun e => e.2.IP)) :=
  (List.filter_sublist l).map _

theorem AddPeer_ok_elim (acc : Account) (now : Nat) (k : String) (p : PeerInfo)
    (acc2 : Account) (np : Peer)
    (h : AccountManager.AddPeer acc now k p = Except.ok (acc2, np)) :
    ∃ sk, getAccountSetupKeyByKey acc (goToUpper k) = some sk ∧
      SetupKey.IsValid now sk = true ∧
      np = { Key := p.Key, SetupKey := sk.Key,
             IP := AllocatePeerIP acc.netBase acc.netSize (accountIPs acc) } ∧
      acc2 = { acc with
        Peers := upsert acc.Peers p.Key np
        SetupKeys := upsert acc.SetupKeys sk.Key (SetupKey.IncrementUsage sk) } := by
  unfold AccountManager.AddPeer at h
  cases hk : getAccountSetupKeyByKey acc (goToUpper k) with
  | none => simp only [hk] at h; cases h
  | some sk =>
    simp only [hk] at h
    cases hv : SetupKey.IsValid now sk with
    | false => simp [hv] at h
    | true =>
      simp only [hv, Bool.not_true, Bool.false_eq_true, if_false, Except.ok.injEq,
        Prod.mk.injEq] at h
      obtain ⟨hacc2, hnp⟩ := h
      subst hnp
      subst hacc2
      exact ⟨sk, rfl, hv, rfl, rfl⟩

theorem applyAccountOp_good (acc : Account) (op : AccountOp) (h : goodIPs acc)
    (hop : allocOk acc op) :
    goodIPs (applyAccountOp acc op) := by
  cases op with
  | add now k p =>
    have hop2 : (AllocatePeerIP acc.netBase acc.netSize (accountIPs acc)).isSome = true := hop
    obtain ⟨a, ha⟩ := Option.isSome_iff_exists.mp hop2
    cases hres : AccountManager.AddPeer acc now k p with
    | error e =>
      simp only [applyAccountOp, hres]
      exact h
    | ok res =>
      obtain ⟨acc2, np⟩ := res
      simp only [applyAccountOp, hres]
      obtain ⟨sk, hsk, hv, hnp, hacc2⟩ := AddPeer_ok_elim acc now k p acc2 np hres
      obtain ⟨hmemH, hnot, hmin⟩ := AllocatePeerIP_spec _ _ _ _ ha
      subst hacc2
      have hipeq : np.IP = some a := by
        rw [hnp]
        exact ha
      constructor
      · apply nodup_upsert_ips acc.Peers p.Key np h.1
        rw [hipeq]
        exact hnot
      · intro ip hipmem
        rcases mem_upsert_ips acc.Peers p.Key np ip hipmem with h1 | h1
        · subst h1
          rw [hipeq]
          exact List.mem_map_of_mem some hmemH
        · exact h.2 ip h1
  | remove pk =>
    simp only [applyAccountOp, AccountManager.DeletePeer]
    constructor
    · exact h.1.sublist (deletePeer_ips_sublist acc.Peers pk)
    · intro ip hipmem
      exact h.2 ip ((deletePeer_ips_sublist acc.Peers pk).mem hipmem)

theorem applyAccountOps_good (ops : List AccountOp) (acc : Account) (h : goodIPs acc)
    (ht : goodTrace acc ops) :
    goodIPs (applyAccountOps acc ops) := by
  induction ops generalizing acc with
  | nil => exact h
  | cons op t ih =>
    obtain ⟨hop, ht2⟩ := ht
    exact ih (applyAccountOp acc op) (applyAccountOp_good acc op h hop) ht2

/-- C9 counterexample: on an account whose subnet is exhausted (every
host address taken), AddPeer still succeeds — peer.go line 246
discards the allocation error — and registers the peer with a nil
IP, which is not a host address of the subnet; a second such
addition then yields two peers with the same (nil) IP, so the
claimed smallest-address assignment and the pairwise-distinct
in-subnet invariant both fail on a reachable state. -/
theorem addPeer_exhaustion_counterexample :
    (AccountManager.AddPeer
        ⟨"acct", [("KEYF", ⟨"KEYF", SetupKeyType.reusable, false, none, 0⟩)],
          [("pOld", ⟨"pOld", "KEYF", some 101⟩)], 100, 2⟩
        0 "keyf" ⟨"pNew", "pNew"⟩).toOption.map (fun r => r.2.IP) = some none ∧
    (none : Option Nat) ∉ (hostAddrs 100 2).map some ∧
    goodIPs ⟨"acct", [("KEYF", ⟨"KEYF", SetupKeyType.reusable, false, none, 0⟩)],
      [("pOld", ⟨"pOld", "KEYF", some 101⟩)], 100, 2⟩ ∧
    ¬ goodIPs (applyAccountOps
        ⟨"acct", [("KEYF", ⟨"KEYF", SetupKeyType.reusable, false, none, 0⟩)],
          [("pOld", ⟨"pOld", "KEYF", some 101⟩)], 100, 2⟩
        [AccountOp.add 0 "keyf" ⟨"pNew", "pNew"⟩,
          AccountOp.add 0 "keyf" ⟨"pTwo", "pTwo"⟩]) :=
  ⟨rfl, by decide, ⟨by decide, by decide⟩, fun h => absurd h.1 (by decide)⟩

/-- C9 amended: the registered peer's IP is always exactly the
allocator's result, so every successful AddPeer performed while the
account subnet still has a free host address assigns the smallest
host address not already taken; on an exhausted subnet the
registration still succeeds with a nil IP because the source
discards the allocation error. Consequently every account state
reached from a state with pairwise-distinct allocated in-subnet IPs
by removals, and by additions each performed while a free host
address remained, again has pairwise-distinct tunnel IPs that all
lie inside the account subnet. -/
theorem addPeer_ip_allocation :
    (∀ (acc : Account) (now : Nat) (k : String) (p : PeerInfo) (acc2 : Account) (np : Peer),
      AccountManager.AddPeer acc now k p = Except.ok (acc2, np) →
        np.IP = AllocatePeerIP acc.netBase acc.netSize (accountIPs acc)) ∧
    (∀ (acc : Account) (now : Nat) (k : String) (p : PeerInfo) (acc2 : Account) (np : Peer)
        (a : Nat),
      AccountManager.AddPeer acc now k p = Except.ok (acc2, np) →
      AllocatePeerIP acc.netBase acc.netSize (accountIPs acc) = some a →
        np.IP = some a ∧ a ∈ hostAddrs acc.netBase acc.netSize ∧
        some a ∉ accountIPs acc ∧
        ∀ b ∈ hostAddrs acc.netBase acc.netSize, some b ∉ accountIPs acc → a ≤ b) ∧
    (∀ (acc : Account) (ops : List AccountOp),
      goodIPs acc → goodTrace acc ops → goodIPs (applyAccountOps acc ops)) := by
  refine ⟨?_, ?_, ?_⟩
  · intro acc now k p acc2 np h
    obtain ⟨sk, hsk, hv, hnp, hacc2⟩ := AddPeer_ok_elim acc now k p acc2 np h
    rw [hnp]
  · intro acc now k p acc2 np a h ha
    obtain ⟨sk, hsk, hv, hnp, hacc2⟩ := AddPeer_ok_elim acc now k p acc2 np h
    obtain ⟨h1, h2, h3⟩ := AllocatePeerIP_spec _ _ _ _ ha
    refine ⟨?_, h1, h2, h3⟩
    rw [hnp]
    exact ha
  · intro acc ops h ht
    exact applyAccountOps_good ops acc h ht

theorem addPeer_ip_allocation_witness :
    (AccountManager.AddPeer
        ⟨"acct", [("KEY9", ⟨"KEY9", SetupKeyType.reusable, false, none, 0⟩)],
          [("pOld", ⟨"pOld", "KEY9", some 101⟩)], 100, 8⟩
        0 "key9" ⟨"pNew", "pNew"⟩).toOption.map (fun r => r.2.IP) = some (some 102) ∧
    goodIPs (applyAccountOps
        ⟨"acct", [("KEY9", ⟨"KEY9", SetupKeyType.reusable, false, none, 0⟩)],
          [("pOld", ⟨"pOld", "KEY9", some 101⟩)], 100, 8⟩
        [AccountOp.add 0 "key9" ⟨"pNew", "pNew"⟩, AccountOp.remove "pOld",
          AccountOp.add 0 "key9" ⟨"pThird", "pThird"⟩]) ∧
    ((102 : Nat) ∈ hostAddrs 100 8 ∧
      some 102 ∉ accountIPs ⟨"acct", [("KEY9", ⟨"KEY9", SetupKeyType.reusable, false, none, 0⟩)],
        [("pOld", ⟨"pOld", "KEY9", some 101⟩)], 100, 8⟩ ∧
      ∀ b ∈ hostAddrs 100 8,
        some b ∉ accountIPs ⟨"acct", [("KEY9", ⟨"KEY9", SetupKeyType.reusable, false, none, 0⟩)],
          [("pOld", ⟨"pOld", "KEY9", some 101⟩)], 100, 8⟩ → 102 ≤ b) :=
  ⟨rfl,
    addPeer_ip_allocation.2.2
      ⟨"acct", [("KEY9", ⟨"KEY9", SetupKeyType.reusable, false, none, 0⟩)],
        [("pOld", ⟨"pOld", "KEY9", some 101⟩)], 100, 8⟩
      [AccountOp.add 0 "key9" ⟨"pNew", "pNew"⟩, AccountOp.remove "pOld",
        AccountOp.add 0 "key9" ⟨"pThird", "pThird"⟩]
      ⟨by decide, by decide⟩ ⟨rfl, trivial, rfl, trivial⟩,
    (addPeer_ip_allocation.2.1
      ⟨"acct", [("KEY9", ⟨"KEY9", SetupKeyType.reusable, false, none, 0⟩)],
        [("pOld", ⟨"pOld", "KEY9", some 101⟩)], 100, 8⟩
      0 "key9" ⟨"pNew", "pNew"⟩ _ _ 102 rfl rfl).2⟩

theorem getKey_after_upsert (l : List (String × SetupKey)) (u : String) (sk sk2 : SetupKey)
    (hwf : ∀ x ∈ l, x.1 = x.2.Key)
    (hfind : (l.find? (fun e => e.2.Key == u)).map (fun e => e.2) = some sk)
    (hkey : sk2.Key = sk.Key) :
    ((upsert l sk.Key sk2).find? (fun e => e.2.Key == u)).map (fun e => e.2) = some sk2 := by
  induction l with
  | nil => simp [List.find?] at hfind
  | cons x t ih =>
    obtain ⟨k0, v0⟩ := x
    by_cases hp : (v0.Key == u) = true
    · have hpf : (fun e : String × SetupKey => e.2.Key == u) (k0, v0) = true := hp
      rw [@List.find?_cons_of_pos _ (fun e => e.2.Key == u) (k0, v0) t hpf] at hfind
      have hv0 : v0 = sk := by simpa using hfind
      have hk0 : k0 = v0.Key := hwf (k0, v0) (List.mem_cons_self _ _)
      have hueq : v0.Key = u := by simpa using hp
      have h2 : sk2.Key = u := by
        rw [hkey, ← hv0]
        exact hueq
      rw [← hv0]
      simp only [upsert]
      rw [if_pos hk0]
      have hpf2 : (fun e : String × SetupKey => e.2.Key == u) (k0, sk2) = true := by
        simpa using h2
      rw [@List.find?_cons_of_pos _ (fun e => e.2.Key == u) (k0, sk2) t hpf2]
      rfl
    · have hpn : ¬ (fun e : String × SetupKey => e.2.Key == u) (k0, v0) = true := hp
      rw [@List.find?_cons_of_neg _ (fun e => e.2.Key == u) (k0, v0) t hpn] at hfind
      have hk0 : k0 = v0.Key := hwf (k0, v0) (List.mem_cons_self _ _)
      have hsku : sk.Key = u := by
        cases hft : t.find? (fun e => e.2.Key == u) with
        | none => rw [hft] at hfind; cases hfind
        | some e2 =>
          rw [hft] at hfind
          have hp2 := List.find?_some hft
          have he2 : e2.2 = sk := by simpa using hfind
          rw [← he2]
          simpa using hp2
      have hvne : v0.Key ≠ u := by simpa using hp
      have hne : ¬ (k0 = sk.Key) := by
        rw [hk0, hsku]
        exact hvne
      simp only [upsert]
      rw [if_neg hne]
      rw [@List.find?_cons_of_neg _ (fun e => e.2.Key == u) (k0, v0) (upsert t sk.Key sk2) hpn]
      exact ih (fun y hy => hwf y (List.mem_cons_of_mem _ hy)) hfind

/-- C5: a one-off setup key with usage 0 that is neither revoked nor
expired is valid; the first AddPeer using it succeeds and increments
its usage counter to 1; the stored key is then invalid at every
later time, so every subsequent AddPeer with the same key fails with
FailedPrecondition and leaves the account unchanged — no peer
created, no IP allocated, no usage increment. -/
theorem oneoff_key_single_use (acc : Account) (now now2 : Nat) (k : String)
    (p p2 : PeerInfo) (sk : SetupKey)
    (hwf : ∀ x ∈ acc.SetupKeys, x.1 = x.2.Key)
    (hfind : getAccountSetupKeyByKey acc (goToUpper k) = some sk)
    (htype : sk.typ = SetupKeyType.oneOff)
    (hrev : sk.Revoked = false)
    (hexp : SetupKey.notExpired now sk = true)
    (hused : sk.UsedTimes = 0)
    (hip : (AllocatePeerIP acc.netBase acc.netSize (accountIPs acc)).isSome = true) :
    SetupKey.IsValid now sk = true ∧
    ∃ acc2 np, AccountManager.AddPeer acc now k p = Except.ok (acc2, np) ∧
      getAccountSetupKeyByKey acc2 (goToUpper k) = some (SetupKey.IncrementUsage sk) ∧
      (SetupKey.IncrementUsage sk).UsedTimes = 1 ∧
      SetupKey.IsValid now2 (SetupKey.IncrementUsage sk) = false ∧
      AccountManager.AddPeer acc2 now2 k p2 = Except.error ErrCode.failedPrecondition ∧
      applyAccountOp acc2 (AccountOp.add now2 k p2) = acc2 := by
  have hvalid : SetupKey.IsValid now sk = true := by
    simp [SetupKey.IsValid, hrev, hexp, hused]
  obtain ⟨ip, hipeq⟩ := Option.isSome_iff_exists.mp hip
  have hipeq2 : AllocatePeerIP acc.netBase acc.netSize
      (List.map (fun e => e.2.IP) acc.Peers) = some ip := hipeq
  have hok : AccountManager.AddPeer acc now k p =
      Except.ok
        ({ acc with
            Peers := upsert acc.Peers p.Key { Key := p.Key, SetupKey := sk.Key, IP := some ip }
            SetupKeys := upsert acc.SetupKeys sk.Key (SetupKey.IncrementUsage sk) },
          { Key := p.Key, SetupKey := sk.Key, IP := some ip }) := by
    unfold AccountManager.AddPeer
    simp only [hfind, hvalid, Bool.not_true, Bool.false_eq_true, if_false, hipeq2]
  have hlookup2 : getAccountSetupKeyByKey
      ({ acc with
          Peers := upsert acc.Peers p.Key { Key := p.Key, SetupKey := sk.Key, IP := some ip }
          SetupKeys := upsert acc.SetupKeys sk.Key (SetupKey.IncrementUsage sk) } : Account)
      (goToUpper k) = some (SetupKey.IncrementUsage sk) :=
    getKey_after_upsert acc.SetupKeys (goToUpper k) sk (SetupKey.IncrementUsage sk)
      hwf hfind rfl
  have hinvalid : SetupKey.IsValid now2 (SetupKey.IncrementUsage sk) = false := by
    simp [SetupKey.IsValid, SetupKey.IncrementUsage, htype, hused]
  have hsecond : AccountManager.AddPeer
      ({ acc with
          Peers := upsert acc.Peers p.Key { Key := p.Key, SetupKey := sk.Key, IP := some ip }
          SetupKeys := upsert acc.SetupKeys sk.Key (SetupKey.IncrementUsage sk) } : Account)
      now2 k p2 = Except.error ErrCode.failedPrecondition := by
    unfold AccountManager.AddPeer
    simp only [hlookup2, hinvalid, Bool.not_false, if_true]
  refine ⟨hvalid, _, _, hok, hlookup2, ?_, hinvalid, hsecond, ?_⟩
  · simp [SetupKey.IncrementUsage, hused]
  · simp only [applyAccountOp, hsecond]

theorem oneoff_key_single_use_witness :
    SetupKey.IsValid 0 ⟨"KEY1", SetupKeyType.oneOff, false, none, 0⟩ = true ∧
    ∃ acc2 np,
      AccountManager.AddPeer
          ⟨"acct", [("KEY1", ⟨"KEY1", SetupKeyType.oneOff, false, none, 0⟩)], [], 100, 8⟩
          0 "key1" ⟨"pA", "pA"⟩ = Except.ok (acc2, np) ∧
      getAccountSetupKeyByKey acc2 (goToUpper "key1") =
        some (SetupKey.IncrementUsage ⟨"KEY1", SetupKeyType.oneOff, false, none, 0⟩) ∧
      (SetupKey.IncrementUsage ⟨"KEY1", SetupKeyType.oneOff, false, none, 0⟩).UsedTimes = 1 ∧
      SetupKey.IsValid 7
        (SetupKey.IncrementUsage ⟨"KEY1", SetupKeyType.oneOff, false, none, 0⟩) = false ∧
      AccountManager.AddPeer acc2 7 "key1" ⟨"pB", "pB"⟩ =
        Except.error ErrCode.failedPrecondition ∧
      applyAccountOp acc2 (AccountOp.add 7 "key1" ⟨"pB", "pB"⟩) = acc2 :=
  oneoff_key_single_use
    ⟨"acct", [("KEY1", ⟨"KEY1", SetupKeyType.oneOff, false, none, 0⟩)], [], 100, 8⟩
    0 7 "key1" ⟨"pA", "pA"⟩ ⟨"pB", "pB"⟩ ⟨"KEY1", SetupKeyType.oneOff, false, none, 0⟩
    (by decide) rfl rfl rfl rfl rfl rfl
